import Mathlib

/-!
# Verification of the ATM ledger core (src/atm.py)

Shallow embedding of the authentication-and-ledger engine of `atm.py`.

Modelling conventions:
* Python numbers (`float` amounts and balances) are modelled as exact
  rationals `ℚ`; the operations only add, subtract and compare, so the
  arithmetic structure is that of the source with exact arithmetic.
* The Python dict `db["users"]` (insertion-ordered, unique keys) is an
  association list `List (String × User)`; insertion appends at the end,
  exactly as CPython dicts order new keys.
* `hashlib.sha256(...).hexdigest()` is an abstract digest
  `H : String → String` passed explicitly; theorems that need
  collision-freeness assume `Function.Injective H`.
* `secrets.token_hex(8)` and `time.strftime(...)` are nondeterministic
  inputs, modelled as explicit `freshSalt` / `now` arguments.
* A Python function that can `raise` is modelled as
  `Db → Db × Option Err`: the returned `Db` is the store as left by the
  function (reflecting every mutation performed before a raise, in source
  order), and the second component is the raised error, if any.
  `verify_pin`, which returns a value and does not mutate, is
  `Except Err Bool`; calling it with a `None` salt is the Python
  `TypeError` from `None + pin`.
-/

namespace Atm

/-- The distinct `ValueError` messages raised in `atm.py`, plus the
`TypeError` that `verify_pin` raises when the salt is `None`. -/
inductive Err where
  | badAmount
  | noUser
  | userExists
  | wrongPin
  | insufficientFunds
  | atmOutOfCash
  | noSuchUser
  | typeError
deriving DecidableEq, Repr

/-- One value of `db["users"]`: `{"role": ..., "pin_salt": ..., "pin_hash": ..., "balance": ...}`. -/
structure User where
  role : String
  pin_salt : Option String
  pin_hash : Option String
  balance : ℚ
deriving DecidableEq, Repr

/-- One entry of `db["transactions"]`, as built by `log_transaction`. -/
structure Txn where
  time : String
  user : String
  type : String
  amount : ℚ
  note : String
deriving DecidableEq, Repr

/-- The persisted store `{"atm_cash": ..., "users": {...}, "transactions": [...]}`. -/
structure Db where
  atm_cash : ℚ
  users : List (String × User)
  transactions : List Txn
deriving DecidableEq, Repr

/-- Association-list lookup, the model of `db["users"].get(username)` /
`username in db["users"]`. -/
def lookupUser (users : List (String × User)) (username : String) : Option User :=
  match users with
  | [] => none
  | (k, v) :: rest => if k = username then some v else lookupUser rest username

/-- `db["users"].get(username)`. -/
def Db.getUser (db : Db) (username : String) : Option User :=
  lookupUser db.users username

/-- In-place mutation of the entry at `username` (Python
`db["users"][username][...] = ...`). -/
def updateUser (users : List (String × User)) (username : String) (f : User → User) :
    List (String × User) :=
  users.map fun p => if p.1 = username then (p.1, f p.2) else p

/-- `del db["users"][username]`. -/
def removeUser (users : List (String × User)) (username : String) :
    List (String × User) :=
  users.filter fun p => p.1 ≠ username

/-- Python truthiness of an `Option String` field (`None` and `""` are falsy). -/
def truthyStr : Option String → Bool
  | none => false
  | some s => s != ""

/-- `hash_pin(pin, salt=None)` with the fresh random salt passed explicitly:
returns `(salt, H(salt + pin))`. -/
def hash_pin (H : String → String) (pin : String) (freshSalt : String) : String × String :=
  (freshSalt, H (freshSalt ++ pin))

/-- `verify_pin(pin, salt, pin_hash)`: recomputes the digest and compares it
with `==`. With `salt = None`, Python evaluates `None + pin` and raises
`TypeError`; with `pin_hash = None`, the string-vs-None comparison is `False`. -/
def verify_pin (H : String → String) (pin : String) (salt : Option String)
    (pin_hash : Option String) : Except Err Bool :=
  match salt with
  | none => .error .typeError
  | some s => .ok (some (H (s ++ pin)) == pin_hash)

/-- `log_transaction(db, username, action_type, amount, note)`: appends one
record to `db["transactions"]` (the `save_db` persistence call is I/O, not
state). -/
def log_transaction (db : Db) (now username action_type : String) (amount : ℚ)
    (note : String) : Db :=
  { db with transactions := db.transactions ++ [⟨now, username, action_type, amount, note⟩] }

/-- `create_user(db, username, pin=None, role="user", balance=0)`. -/
def create_user (H : String → String) (freshSalt now : String) (db : Db)
    (username : String) (pin : Option String) (role : String) (balance : ℚ) :
    Db × Option Err :=
  if (db.getUser username).isSome then (db, some .userExists)
  else
    let sh : Option String × Option String :=
      match pin with
      | none => (none, none)
      | some p =>
        let s := hash_pin H p freshSalt
        (some s.1, some s.2)
    let db1 : Db := { db with users := db.users ++ [(username, ⟨role, sh.1, sh.2, balance⟩)] }
    (log_transaction db1 now username "create_user" balance ("role=" ++ role), none)

/-- `delete_user(db, username)`. -/
def delete_user (now : String) (db : Db) (username : String) : Db × Option Err :=
  if (db.getUser username).isSome then
    let db1 : Db := { db with users := removeUser db.users username }
    (log_transaction db1 now username "delete_user" 0 "deleted", none)
  else (db, some .noUser)

/-- `change_pin(db, username, old_pin, new_pin)`: verifies the old PIN only
when a pin hash is set (the bootstrap path skips verification), then stores a
fresh salt and hash. -/
def change_pin (H : String → String) (freshSalt now : String) (db : Db)
    (username old_pin new_pin : String) : Db × Option Err :=
  match db.getUser username with
  | none => (db, some .noUser)
  | some user =>
    let doSet : Db × Option Err :=
      let s := hash_pin H new_pin freshSalt
      let users1 := updateUser db.users username
        (fun u => { u with pin_salt := some s.1, pin_hash := some s.2 })
      let db1 : Db := { db with users := users1 }
      (log_transaction db1 now username "change_pin" 0 "", none)
    if truthyStr user.pin_hash then
      match verify_pin H old_pin user.pin_salt user.pin_hash with
      | .error e => (db, some e)
      | .ok true => doSet
      | .ok false => (db, some .wrongPin)
    else doSet

/-- `check_balance(db, username)`. -/
def check_balance (db : Db) (username : String) : Except Err ℚ :=
  match db.getUser username with
  | none => .error .noUser
  | some user => .ok user.balance

/-- `deposit(db, username, amount)`. -/
def deposit (now : String) (db : Db) (username : String) (amount : ℚ) :
    Db × Option Err :=
  if amount ≤ 0 then (db, some .badAmount)
  else
    match db.getUser username with
    | none => (db, some .noUser)
    | some _ =>
      let db1 : Db := { db with
        users := updateUser db.users username (fun u => { u with balance := u.balance + amount }),
        atm_cash := db.atm_cash + amount }
      (log_transaction db1 now username "deposit" amount "", none)

/-- `withdraw(db, username, amount)`: checks, in source order, amount > 0,
user exists, balance sufficiency, then vault sufficiency. -/
def withdraw (now : String) (db : Db) (username : String) (amount : ℚ) :
    Db × Option Err :=
  if amount ≤ 0 then (db, some .badAmount)
  else
    match db.getUser username with
    | none => (db, some .noUser)
    | some user =>
      if user.balance < amount then (db, some .insufficientFunds)
      else if db.atm_cash < amount then (db, some .atmOutOfCash)
      else
        let db1 : Db := { db with
          users := updateUser db.users username (fun u => { u with balance := u.balance - amount }),
          atm_cash := db.atm_cash - amount }
        (log_transaction db1 now username "withdraw" amount "", none)

/-- `view_transactions(db, limit=20)`, i.e. `db["transactions"][-limit:]`.
For `limit = 0` the Python slice is `[-0:] = [0:]`, the whole list; for
`limit ≥ 1` it is the last `min limit len` records. -/
def view_transactions (db : Db) (limit : Nat) : List Txn :=
  if limit = 0 then db.transactions
  else db.transactions.drop (db.transactions.length - limit)

/-- `set_atm_cash(db, amount)`: replaces the vault scalar unconditionally and
logs under the literal username `"admin"`. -/
def set_atm_cash (now : String) (db : Db) (amount : ℚ) : Db × Option Err :=
  let db1 : Db := { db with atm_cash := amount }
  (log_transaction db1 now "admin" "set_atm_cash" amount "", none)

/-- `change_role(db, username, new_role)`: rewrites the role and logs under
the literal username `"admin"`. -/
def change_role (now : String) (db : Db) (username new_role : String) :
    Db × Option Err :=
  match db.getUser username with
  | none => (db, some .noSuchUser)
  | some user =>
    let users1 := updateUser db.users username (fun u => { u with role := new_role })
    let db1 : Db := { db with users := users1 }
    (log_transaction db1 now "admin" "change_role" 0
      (username ++ ": " ++ user.role ++ " -> " ++ new_role), none)

/-- The credential update `change_pin` performs on the user record:
`user["pin_salt"] = salt; user["pin_hash"] = pin_hash`. -/
def setCred (salt pin_hash : String) (u : User) : User :=
  { u with pin_salt := some salt, pin_hash := some pin_hash }

/-- A single balance-mutating ledger call, for stating preservation over
sequences of `deposit` / `withdraw`. -/
inductive LedgerOp where
  | dep (username : String) (amount : ℚ)
  | wd (username : String) (amount : ℚ)

/-- Run one ledger call, keeping the resulting store (a failed call leaves
the store as the function left it). -/
def applyOp (now : String) (db : Db) : LedgerOp → Db
  | .dep u a => (deposit now db u a).1
  | .wd u a => (withdraw now db u a).1

/-- Run a sequence of ledger calls left to right. -/
def applyOps (now : String) (db : Db) : List LedgerOp → Db
  | [] => db
  | op :: rest => applyOps now (applyOp now db op) rest

/-- A sample store: vault 100, one user `"alice"` with a set credential and
balance 50. -/
def db0 : Db :=
  ⟨100, [("alice", ⟨"user", some "s0", some "h0", 50⟩)], []⟩

/-- A store whose vault is 0 (as after `set_atm_cash(db, 0)`), with a user
whose balance is also 0. -/
def db_vault0 : Db :=
  ⟨0, [("alice", ⟨"user", some "s0", some "h0", 0⟩)], []⟩

/-- A store with a credential-less user (first-login PIN setup pending). -/
def db_boot : Db :=
  ⟨100, [("bob", ⟨"user", none, none, 0⟩)], []⟩

/-- A store holding a user with a negative balance, as `create_user` accepts. -/
def db_neg : Db :=
  ⟨0, [("carol", ⟨"user", none, none, -100⟩)], []⟩

/-- A store with exactly one logged transaction. -/
def db_onetx : Db :=
  ⟨0, [], [⟨"t0", "alice", "deposit", 5, ""⟩]⟩

/-! ## Helper lemmas -/

theorem lookupUser_updateUser_self (users : List (String × User)) (username : String)
    (f : User → User) :
    lookupUser (updateUser users username f) username =
      (lookupUser users username).map f := by
  induction users with
  | nil => rfl
  | cons p rest ih =>
    obtain ⟨k, v⟩ := p
    show lookupUser ((if k = username then (k, f v) else (k, v)) :: updateUser rest username f)
        username = _
    by_cases hk : k = username
    · rw [if_pos hk]
      subst hk
      simp [lookupUser]
    · rw [if_neg hk]
      simp [lookupUser, hk, ih]

theorem lookupUser_updateUser_ne (users : List (String × User)) (username v : String)
    (f : User → User) (h : v ≠ username) :
    lookupUser (updateUser users username f) v = lookupUser users v := by
  induction users with
  | nil => rfl
  | cons p rest ih =>
    obtain ⟨k, w⟩ := p
    show lookupUser ((if k = username then (k, f w) else (k, w)) :: updateUser rest username f)
        v = _
    by_cases hk : k = username
    · rw [if_pos hk]
      have hkv : ¬ (k = v) := by rw [hk]; exact fun hc => h hc.symm
      simp [lookupUser, hkv, ih]
    · rw [if_neg hk]
      by_cases hkv : k = v <;> simp [lookupUser, hkv, ih]

theorem getUser_log_transaction (db : Db) (now username action_type : String) (amount : ℚ)
    (note v : String) :
    (log_transaction db now username action_type amount note).getUser v = db.getUser v := rfl

theorem string_append_left_cancel {s p q : String} (h : s ++ p = s ++ q) : p = q := by
  have h4 : p.data = q.data :=
    List.append_cancel_left
      (show s.data ++ p.data = s.data ++ q.data from congrArg String.data h)
  cases p; cases q; exact congrArg String.mk h4

theorem some_beq_some (x y : String) : (some x == some y) = (x == y) := rfl

/-! ## Claims -/

/-- C1: For every existing account and every amount, `withdraw(account, amount)` with
`amount > 0`, `account.balance ≥ amount` and `vault ≥ amount` succeeds and decreases
both the account's balance and the vault cash by exactly `amount`; if the balance is
too low it fails with InsufficientFunds, and if the vault is too low it fails with
InsufficientVaultCash, in either failure leaving the entire state unchanged. -/
theorem withdraw_spec (now : String) (db : Db) (username : String) (amount : ℚ)
    (user : User) (hu : db.getUser username = some user) (hpos : 0 < amount) :
    (user.balance < amount →
      withdraw now db username amount = (db, some Err.insufficientFunds)) ∧
    (amount ≤ user.balance → db.atm_cash < amount →
      withdraw now db username amount = (db, some Err.atmOutOfCash)) ∧
    (amount ≤ user.balance → amount ≤ db.atm_cash →
      (withdraw now db username amount).2 = none ∧
      (withdraw now db username amount).1.atm_cash = db.atm_cash - amount ∧
      (withdraw now db username amount).1.getUser username =
        some { user with balance := user.balance - amount }) := by
  have h0 : ¬ amount ≤ 0 := not_le.mpr hpos
  refine ⟨?_, ?_, ?_⟩
  · intro hb
    simp [withdraw, h0, hu, hb]
  · intro hb hv
    simp [withdraw, h0, hu, not_lt.mpr hb, hv]
  · intro hb hv
    have hb' : ¬ user.balance < amount := not_lt.mpr hb
    have hv' : ¬ db.atm_cash < amount := not_lt.mpr hv
    have hu' : lookupUser db.users username = some user := hu
    simp [withdraw, h0, hu, hb', hv', log_transaction, Db.getUser,
      lookupUser_updateUser_self, hu']

/-- Witness for C1 at a concrete store: alice has balance 50, the vault holds 100. -/
theorem withdraw_spec_witness :
    (((50 : ℚ) < 20 →
      withdraw "t" db0 "alice" 20 = (db0, some Err.insufficientFunds)) ∧
    ((20 : ℚ) ≤ 50 → db0.atm_cash < 20 →
      withdraw "t" db0 "alice" 20 = (db0, some Err.atmOutOfCash)) ∧
    ((20 : ℚ) ≤ 50 → (20 : ℚ) ≤ db0.atm_cash →
      (withdraw "t" db0 "alice" 20).2 = none ∧
      (withdraw "t" db0 "alice" 20).1.atm_cash = db0.atm_cash - 20 ∧
      (withdraw "t" db0 "alice" 20).1.getUser "alice" =
        some ⟨"user", some "s0", some "h0", 50 - 20⟩)) ∧
    (withdraw "t" db0 "alice" 20).1.atm_cash = 80 ∧
    (withdraw "t" db0 "alice" 20).1.getUser "alice" = some ⟨"user", some "s0", some "h0", 30⟩ := by
  have hmain := withdraw_spec "t" db0 "alice" 20 ⟨"user", some "s0", some "h0", 50⟩
    (by norm_num +decide [db0, Db.getUser, lookupUser]) (by norm_num)
  refine ⟨hmain, ?_, ?_⟩
  · have := (hmain.2.2 (by norm_num) (by norm_num [db0])).2.1
    rw [this]; norm_num [db0]
  · have := (hmain.2.2 (by norm_num) (by norm_num [db0])).2.2
    rw [this]; norm_num

/-- C2: Every mutating operation (deposit, withdraw, create_user, delete_user,
change_pin, change_role, set_atm_cash) is all-or-nothing: whenever the operation
raises an error, the store is exactly as it was before the call. -/
theorem mutating_ops_all_or_nothing (H : String → String) (freshSalt now : String)
    (db : Db) (username old_pin new_pin role new_role : String) (pin : Option String)
    (amount balance : ℚ) :
    ((deposit now db username amount).2.isSome → (deposit now db username amount).1 = db) ∧
    ((withdraw now db username amount).2.isSome → (withdraw now db username amount).1 = db) ∧
    ((create_user H freshSalt now db username pin role balance).2.isSome →
      (create_user H freshSalt now db username pin role balance).1 = db) ∧
    ((delete_user now db username).2.isSome → (delete_user now db username).1 = db) ∧
    ((change_pin H freshSalt now db username old_pin new_pin).2.isSome →
      (change_pin H freshSalt now db username old_pin new_pin).1 = db) ∧
    ((change_role now db username new_role).2.isSome →
      (change_role now db username new_role).1 = db) ∧
    ((set_atm_cash now db amount).2.isSome → (set_atm_cash now db amount).1 = db) := by
  refine ⟨?_, ?_, ?_, ?_, ?_, ?_, ?_⟩
  · unfold deposit
    split
    · simp
    · split <;> simp
  · unfold withdraw
    split
    · simp
    · split
      · simp
      · split
        · simp
        · split <;> simp
  · unfold create_user
    split <;> simp
  · unfold delete_user
    split <;> simp
  · unfold change_pin
    split
    · simp
    · split
      · split <;> simp
      · simp
  · unfold change_role
    split <;> simp
  · simp [set_atm_cash]

/-- Witness for C2: withdrawing more than the balance leaves the store unchanged. -/
theorem mutating_ops_all_or_nothing_witness :
    (withdraw "t" db0 "alice" 99999).2.isSome = true ∧
    (withdraw "t" db0 "alice" 99999).1 = db0 :=
  ⟨by norm_num +decide [withdraw, db0, Db.getUser, lookupUser],
   (mutating_ops_all_or_nothing id "s" "t" db0 "alice" "o" "n" "user" "admin" none
      99999 0).2.1
     (by norm_num +decide [withdraw, db0, Db.getUser, lookupUser])⟩

/-- C3 counterexample: `set_atm_cash` performs no sign check, so calling it with
`-5` drives the vault cash negative, refuting "vault cash is ≥ 0 in every reachable
state" and "setVaultCash replaces the vault scalar only with a non-negative value". -/
theorem set_atm_cash_negative_counterexample :
    (set_atm_cash "t" db0 (-5)).2 = none ∧
    (set_atm_cash "t" db0 (-5)).1.atm_cash = -5 ∧
    ¬ (0 ≤ (set_atm_cash "t" db0 (-5)).1.atm_cash) := by
  refine ⟨rfl, ?_, ?_⟩ <;> norm_num [set_atm_cash, db0, log_transaction]

/-- C3 amended: deposit and withdraw preserve vault ≥ 0 (withdraw fails with no
state change rather than drive the vault negative), but `set_atm_cash` replaces the
vault scalar unconditionally with the given amount, with no non-negativity check. -/
theorem vault_nonneg_amended (now : String) (db : Db) (username : String) (amount : ℚ)
    (hv : 0 ≤ db.atm_cash) :
    0 ≤ (deposit now db username amount).1.atm_cash ∧
    0 ≤ (withdraw now db username amount).1.atm_cash ∧
    ∀ a : ℚ, (set_atm_cash now db a).1.atm_cash = a := by
  refine ⟨?_, ?_, fun a => rfl⟩
  · unfold deposit
    split
    · exact hv
    · split
      · exact hv
      · show 0 ≤ (log_transaction _ _ _ _ _ _).atm_cash
        have : ¬ amount ≤ 0 := by assumption
        simp only [log_transaction]
        have : (0 : ℚ) ≤ db.atm_cash + amount := by linarith
        exact this
  · unfold withdraw
    split
    · exact hv
    · split
      · exact hv
      · split
        · exact hv
        · split
          · exact hv
          · show 0 ≤ (log_transaction _ _ _ _ _ _).atm_cash
            have hlt : ¬ db.atm_cash < amount := by assumption
            simp only [log_transaction]
            have : (0 : ℚ) ≤ db.atm_cash - amount := by
              have := not_lt.mp hlt
              linarith
            exact this

/-- Witness for C3's amended theorem at the sample store (vault 100). -/
theorem vault_nonneg_amended_witness :
    (0 : ℚ) ≤ db0.atm_cash ∧
    (0 ≤ (deposit "t" db0 "alice" 7).1.atm_cash ∧
     0 ≤ (withdraw "t" db0 "alice" 7).1.atm_cash ∧
     ∀ a : ℚ, (set_atm_cash "t" db0 a).1.atm_cash = a) :=
  ⟨by norm_num [db0], vault_nonneg_amended "t" db0 "alice" 7 (by norm_num [db0])⟩

/-- C4 counterexample: `create_user` performs no sign check on the initial balance,
so it accepts a negative one, refuting "createAccount only accepts an initial
balance ≥ 0". -/
theorem create_user_negative_balance_counterexample :
    (create_user id "s" "t" db0 "mallory" none "user" (-5)).2 = none ∧
    (create_user id "s" "t" db0 "mallory" none "user" (-5)).1.getUser "mallory" =
      some ⟨"user", none, none, -5⟩ ∧
    ¬ (0 ≤ (-5 : ℚ)) := by
  refine ⟨?_, ?_, by norm_num⟩ <;>
    norm_num +decide [create_user, db0, Db.getUser, lookupUser, log_transaction]

/-- One deposit or withdraw call preserves non-negativity of a given account's
balance. -/
theorem balance_nonneg_step (now : String) (db : Db) (username : String) (op : LedgerOp)
    (h : ∀ user, db.getUser username = some user → 0 ≤ user.balance) :
    ∀ user, (applyOp now db op).getUser username = some user → 0 ≤ user.balance := by
  cases op with
  | dep v a =>
    intro user hu
    by_cases ha : a ≤ 0
    · rw [show applyOp now db (.dep v a) = db from by simp [applyOp, deposit, ha]] at hu
      exact h user hu
    · cases hv : db.getUser v with
      | none =>
        rw [show applyOp now db (.dep v a) = db from by
          simp [applyOp, deposit, ha, hv]] at hu
        exact h user hu
      | some w =>
        have hv' : lookupUser db.users v = some w := hv
        have hexp : (applyOp now db (.dep v a)).getUser username =
            lookupUser (updateUser db.users v fun u => { u with balance := u.balance + a })
              username := by
          simp [applyOp, deposit, ha, hv, hv', log_transaction, Db.getUser]
        rw [hexp] at hu
        by_cases huv : username = v
        · subst huv
          rw [lookupUser_updateUser_self, hv'] at hu
          have hw : 0 ≤ w.balance := h w hv
          have := Option.some.inj hu
          rw [← this]
          have : (0 : ℚ) ≤ w.balance + a := by
            have := not_le.mp ha
            linarith
          exact this
        · rw [lookupUser_updateUser_ne _ _ _ _ huv] at hu
          exact h user hu
  | wd v a =>
    intro user hu
    by_cases ha : a ≤ 0
    · rw [show applyOp now db (.wd v a) = db from by simp [applyOp, withdraw, ha]] at hu
      exact h user hu
    · cases hv : db.getUser v with
      | none =>
        rw [show applyOp now db (.wd v a) = db from by
          simp [applyOp, withdraw, ha, hv]] at hu
        exact h user hu
      | some w =>
        have hv' : lookupUser db.users v = some w := hv
        by_cases hbal : w.balance < a
        · rw [show applyOp now db (.wd v a) = db from by
            simp [applyOp, withdraw, ha, hv, hbal]] at hu
          exact h user hu
        · by_cases hatm : db.atm_cash < a
          · rw [show applyOp now db (.wd v a) = db from by
              simp [applyOp, withdraw, ha, hv, hbal, hatm]] at hu
            exact h user hu
          · have hexp : (applyOp now db (.wd v a)).getUser username =
                lookupUser
                  (updateUser db.users v fun u => { u with balance := u.balance - a })
                  username := by
              simp [applyOp, withdraw, ha, hv, hv', hbal, hatm, log_transaction, Db.getUser]
            rw [hexp] at hu
            by_cases huv : username = v
            · subst huv
              rw [lookupUser_updateUser_self, hv'] at hu
              have := Option.some.inj hu
              rw [← this]
              have : (0 : ℚ) ≤ w.balance - a := by
                have := not_lt.mp hbal
                linarith
              exact this
            · rw [lookupUser_updateUser_ne _ _ _ _ huv] at hu
              exact h user hu

/-- C4 amended: `create_user` accepts any initial balance, including a negative one;
but every account whose balance starts ≥ 0 keeps balance ≥ 0 under every sequence of
deposit and withdraw calls (failed calls leave the balance unchanged; successful
ones preserve non-negativity). -/
theorem balance_nonneg_amended (now : String) (db : Db) (username : String)
    (h : ∀ user, db.getUser username = some user → 0 ≤ user.balance) :
    ∀ ops : List LedgerOp, ∀ user,
      (applyOps now db ops).getUser username = some user → 0 ≤ user.balance := by
  intro ops
  induction ops generalizing db with
  | nil => exact h
  | cons op rest ih =>
    refine fun user hu => ih (applyOp now db op) ?_ user hu
    exact balance_nonneg_step now db username op h

/-- Witness for C4's amended theorem: deposit 5, withdraw 30, then a failing
withdraw of 100 leave alice at balance 25 ≥ 0. -/
theorem balance_nonneg_amended_witness :
    (applyOps "t" db0 [LedgerOp.dep "alice" 5, LedgerOp.wd "alice" 30,
        LedgerOp.wd "alice" 100]).getUser "alice" =
      some ⟨"user", some "s0", some "h0", 25⟩ ∧
    (0 : ℚ) ≤ (User.mk "user" (some "s0") (some "h0") 25).balance := by
  have hres : (applyOps "t" db0 [LedgerOp.dep "alice" 5, LedgerOp.wd "alice" 30,
      LedgerOp.wd "alice" 100]).getUser "alice" =
      some ⟨"user", some "s0", some "h0", 25⟩ := by
    norm_num +decide [applyOps, applyOp, deposit, withdraw, db0, Db.getUser, lookupUser,
      updateUser, log_transaction]
  refine ⟨hres, balance_nonneg_amended "t" db0 "alice" ?_
    [LedgerOp.dep "alice" 5, LedgerOp.wd "alice" 30, LedgerOp.wd "alice" 100]
    ⟨"user", some "s0", some "h0", 25⟩ hres⟩
  intro user hu
  norm_num +decide [db0, Db.getUser, lookupUser] at hu
  rw [← hu]
  norm_num

/-- C5 counterexample: with the vault at 0, a withdrawal of 5 by a user whose
balance is 0 fails with InsufficientFunds, not InsufficientVaultCash — the balance
check runs first. -/
theorem withdraw_vault0_counterexample :
    db_vault0.atm_cash = 0 ∧
    withdraw "t" db_vault0 "alice" 5 = (db_vault0, some Err.insufficientFunds) ∧
    (withdraw "t" db_vault0 "alice" 5).2 ≠ some Err.atmOutOfCash := by
  have h1 : withdraw "t" db_vault0 "alice" 5 = (db_vault0, some Err.insufficientFunds) := by
    norm_num +decide [withdraw, db_vault0, Db.getUser, lookupUser]
  refine ⟨rfl, h1, ?_⟩
  rw [h1]
  simp

/-- C5 amended: when the vault cash is 0, every withdraw of a positive amount by an
existing user fails and leaves the state unchanged; the error is
InsufficientVaultCash when the balance covers the amount, and InsufficientFunds
when it does not. -/
theorem withdraw_vault0_amended (now : String) (db : Db) (username : String)
    (amount : ℚ) (user : User) (hu : db.getUser username = some user)
    (hpos : 0 < amount) (hv : db.atm_cash = 0) :
    (withdraw now db username amount).1 = db ∧
    (amount ≤ user.balance →
      withdraw now db username amount = (db, some Err.atmOutOfCash)) ∧
    (user.balance < amount →
      withdraw now db username amount = (db, some Err.insufficientFunds)) := by
  have h0 : ¬ amount ≤ 0 := not_le.mpr hpos
  have hvlt : db.atm_cash < amount := by rw [hv]; exact hpos
  refine ⟨?_, ?_, ?_⟩
  · by_cases hb : user.balance < amount
    · simp [withdraw, h0, hu, hb]
    · simp [withdraw, h0, hu, hb, hvlt]
  · intro hb
    simp [withdraw, h0, hu, not_lt.mpr hb, hvlt]
  · intro hb
    simp [withdraw, h0, hu, hb]

/-- Witness for C5's amended theorem at the vault-0 store (alice's balance is 0, so
a withdrawal of 5 hits the InsufficientFunds branch). -/
theorem withdraw_vault0_amended_witness :
    ((withdraw "t" db_vault0 "alice" 5).1 = db_vault0 ∧
    ((5 : ℚ) ≤ 0 → withdraw "t" db_vault0 "alice" 5 = (db_vault0, some Err.atmOutOfCash)) ∧
    ((0 : ℚ) < 5 → withdraw "t" db_vault0 "alice" 5 = (db_vault0, some Err.insufficientFunds))) ∧
    withdraw "t" db_vault0 "alice" 5 = (db_vault0, some Err.insufficientFunds) := by
  have hmain := withdraw_vault0_amended "t" db_vault0 "alice" 5
    ⟨"user", some "s0", some "h0", 0⟩
    (by norm_num +decide [db_vault0, Db.getUser, lookupUser]) (by norm_num) rfl
  exact ⟨hmain, hmain.2.2 (by norm_num)⟩

/-- C6: after `change_pin` succeeds, the account's credential is the fresh salt and
the digest of salt + new PIN, and (for a collision-free digest) `verify_pin` returns
true exactly on the new PIN: the new PIN verifies, and every other PIN — in
particular the previously valid one — is rejected. -/
theorem verify_after_change_pin (H : String → String) (hinj : Function.Injective H)
    (freshSalt now : String) (db : Db) (username old_pin new_pin : String) (db2 : Db)
    (hok : change_pin H freshSalt now db username old_pin new_pin = (db2, none)) :
    ∃ user, db2.getUser username = some user ∧
      ∀ p, verify_pin H p user.pin_salt user.pin_hash = .ok (p == new_pin) := by
  have key : ∀ p : String,
      (H (freshSalt ++ p) == H (freshSalt ++ new_pin)) = (p == new_pin) := by
    intro p
    by_cases hpq : p = new_pin
    · subst hpq; simp
    · have hne : H (freshSalt ++ p) ≠ H (freshSalt ++ new_pin) := fun hc =>
        hpq (string_append_left_cancel (hinj hc))
      simp [hpq, hne]
  unfold change_pin at hok
  cases hu : db.getUser username with
  | none =>
    rw [hu] at hok
    dsimp only at hok
    exact absurd (congrArg Prod.snd hok) (by simp)
  | some u0 =>
    rw [hu] at hok
    dsimp only [hash_pin] at hok
    have hu' : lookupUser db.users username = some u0 := hu
    have hdb2 : db2 = log_transaction
        { db with users :=
            updateUser db.users username (setCred freshSalt (H (freshSalt ++ new_pin))) }
        now username "change_pin" 0 "" := by
      by_cases ht : truthyStr u0.pin_hash
      · rw [if_pos ht] at hok
        cases hv : verify_pin H old_pin u0.pin_salt u0.pin_hash with
        | error e =>
          rw [hv] at hok
          exact absurd (congrArg Prod.snd hok) (by simp)
        | ok b =>
          rw [hv] at hok
          cases b
          · exact absurd (congrArg Prod.snd hok) (by simp)
          · exact ((congrArg Prod.fst hok).symm).trans (by rfl)
      · rw [if_neg ht] at hok
        exact ((congrArg Prod.fst hok).symm).trans (by rfl)
    refine ⟨setCred freshSalt (H (freshSalt ++ new_pin)) u0, ?_, ?_⟩
    · rw [hdb2]
      show lookupUser (updateUser db.users username _) username = _
      rw [lookupUser_updateUser_self, hu']
      rfl
    · intro p
      show verify_pin H p (some freshSalt) (some (H (freshSalt ++ new_pin))) = _
      simp only [verify_pin, some_beq_some, key p]

/-- Witness for C6: in the bootstrap store, bob sets PIN "9999"; afterwards exactly
the PIN "9999" verifies. -/
theorem verify_after_change_pin_witness :
    ∃ user, ((change_pin id "s1" "t" db_boot "bob" "x" "9999").1).getUser "bob" =
        some user ∧
      ∀ p, verify_pin id p user.pin_salt user.pin_hash = .ok (p == "9999") :=
  verify_after_change_pin id Function.injective_id "s1" "t" db_boot "bob" "x" "9999"
    ((change_pin id "s1" "t" db_boot "bob" "x" "9999").1)
    (by norm_num +decide [change_pin, db_boot, Db.getUser, lookupUser, truthyStr,
      hash_pin, updateUser, log_transaction])

/-- C7 counterexample: with no credential set (null salt and hash), `verify_pin`
does not return false — Python evaluates `None + pin` and raises TypeError. -/
theorem verify_pin_none_counterexample :
    verify_pin id "1234" none none = .error Err.typeError ∧
    verify_pin id "1234" none none ≠ .ok false := by
  refine ⟨rfl, ?_⟩
  simp [verify_pin]

/-- C7 amended: for an account with no credential, `verify_pin` raises a TypeError
(from `None + pin`) for every presented PIN instead of returning false; when only
the hash is null the comparison against None yields false. The fail-closed behavior
the spec describes lives at the call sites, which test `pin_hash` before calling. -/
theorem verify_pin_no_credential_amended (H : String → String) (p : String)
    (ph : Option String) :
    verify_pin H p none ph = .error Err.typeError ∧
    ∀ s : String, verify_pin H p (some s) none = .ok false :=
  ⟨rfl, fun _ => rfl⟩

/-- C8 counterexample: on an account with a negative balance (which `create_user`
accepts), deposit 50 then withdraw 50 does not restore the prior balance: the
withdraw fails with InsufficientFunds and the balance stays at -50 instead of
returning to -100. -/
theorem deposit_withdraw_roundtrip_counterexample :
    check_balance db_neg "carol" = .ok (-100) ∧
    (deposit "t" db_neg "carol" 50).2 = none ∧
    (withdraw "u" (deposit "t" db_neg "carol" 50).1 "carol" 50).2 =
      some Err.insufficientFunds ∧
    check_balance (withdraw "u" (deposit "t" db_neg "carol" 50).1 "carol" 50).1 "carol" =
      .ok (-50) ∧
    (Except.ok (-50 : ℚ) : Except Err ℚ) ≠ .ok (-100) := by
  refine ⟨?_, ?_, ?_, ?_, ?_⟩
  · norm_num +decide [check_balance, db_neg, Db.getUser, lookupUser]
  · norm_num +decide [deposit, db_neg, Db.getUser, lookupUser, updateUser, log_transaction]
  · norm_num +decide [withdraw, deposit, db_neg, Db.getUser, lookupUser, updateUser,
      log_transaction]
  · norm_num +decide [check_balance, withdraw, deposit, db_neg, Db.getUser, lookupUser,
      updateUser, log_transaction]
  · intro hc
    have : (-50 : ℚ) = -100 := Except.ok.inj hc
    norm_num at this

/-- C8 amended: for every existing account whose balance is ≥ 0 in a store whose
vault is ≥ 0 (the spec's intended states), and every amount a > 0, deposit(a)
followed by withdraw(a) succeeds and returns both the account's balance and the
vault cash to exactly their prior values. -/
theorem deposit_withdraw_roundtrip (now now2 : String) (db : Db) (username : String)
    (a : ℚ) (user : User) (hu : db.getUser username = some user)
    (hb : 0 ≤ user.balance) (hv : 0 ≤ db.atm_cash) (hpos : 0 < a) :
    (deposit now db username a).2 = none ∧
    (withdraw now2 (deposit now db username a).1 username a).2 = none ∧
    (withdraw now2 (deposit now db username a).1 username a).1.atm_cash = db.atm_cash ∧
    (withdraw now2 (deposit now db username a).1 username a).1.getUser username =
      some user := by
  have h0 : ¬ a ≤ 0 := not_le.mpr hpos
  have hu' : lookupUser db.users username = some user := hu
  have hd2 : (deposit now db username a).2 = none := by simp [deposit, h0, hu]
  have hdu : (deposit now db username a).1.getUser username =
      some { user with balance := user.balance + a } := by
    simp [deposit, h0, hu, log_transaction, Db.getUser, lookupUser_updateUser_self, hu']
  have hdc : (deposit now db username a).1.atm_cash = db.atm_cash + a := by
    simp [deposit, h0, hu, log_transaction]
  have hdu' : lookupUser (deposit now db username a).1.users username =
      some { user with balance := user.balance + a } := hdu
  have hblt : ¬ ({ user with balance := user.balance + a } : User).balance < a := by
    simp only [not_lt]
    show a ≤ user.balance + a
    linarith
  have hvlt : ¬ (deposit now db username a).1.atm_cash < a := by
    rw [hdc]
    simp only [not_lt]
    linarith
  have huser : ({ user with balance := user.balance + a - a } : User) = user := by
    cases user with
    | mk r s hsh b => simp
  have hv0 : ¬ db.atm_cash < 0 := not_lt.mpr hv
  refine ⟨hd2, ?_, ?_, ?_⟩
  · simp [withdraw, h0, hdu, hblt, hvlt]
  · simp [withdraw, h0, hdu, hblt, hvlt, hv0, log_transaction, hdc]
  · simp [withdraw, h0, hdu, hblt, hvlt, hv0, log_transaction, Db.getUser,
      lookupUser_updateUser_self, hdu', huser]

/-- Witness for C8's amended theorem: deposit 7 then withdraw 7 returns alice and
the vault to their prior values. -/
theorem deposit_withdraw_roundtrip_witness :
    (deposit "t" db0 "alice" 7).2 = none ∧
    (withdraw "u" (deposit "t" db0 "alice" 7).1 "alice" 7).2 = none ∧
    (withdraw "u" (deposit "t" db0 "alice" 7).1 "alice" 7).1.atm_cash = db0.atm_cash ∧
    (withdraw "u" (deposit "t" db0 "alice" 7).1 "alice" 7).1.getUser "alice" =
      some ⟨"user", some "s0", some "h0", 50⟩ :=
  deposit_withdraw_roundtrip "t" "u" db0 "alice" 7 ⟨"user", some "s0", some "h0", 50⟩
    (by norm_num +decide [db0, Db.getUser, lookupUser]) (by norm_num)
    (by norm_num [db0]) (by norm_num)

/-- Python's `l[-n:]` for `n ≥ 0` as drop, rendered as "the last n in order". -/
theorem drop_length_sub_eq_reverse_take {α : Type} (l : List α) (n : Nat) :
    l.drop (l.length - n) = (l.reverse.take n).reverse := by
  simp [List.reverse_take]

/-- C9 counterexample: with one record in the log, `view_transactions(db, 0)`
returns the whole log (Python's `[-0:]` slice is `[0:]`), not the last 0 records. -/
theorem view_transactions_zero_counterexample :
    db_onetx.transactions.length = 1 ∧
    view_transactions db_onetx 0 = [⟨"t0", "alice", "deposit", 5, ""⟩] ∧
    view_transactions db_onetx 0 ≠ ([] : List Txn) := by
  refine ⟨rfl, rfl, ?_⟩
  simp [view_transactions, db_onetx]

/-- C9 amended: for n ≥ 1, `view_transactions(db, n)` returns exactly the last n
records of the log in chronological (append) order, most recent last, i.e. the
whole log when it has fewer than n records; for n = 0 it returns the whole log
(Python `[-0:]` slice), not the empty list. -/
theorem view_transactions_amended (db : Db) (n : Nat) :
    (1 ≤ n → view_transactions db n = (db.transactions.reverse.take n).reverse) ∧
    view_transactions db 0 = db.transactions := by
  constructor
  · intro hn
    have hne : ¬ (n = 0) := by omega
    rw [view_transactions, if_neg hne, drop_length_sub_eq_reverse_take]
  · rfl

/-- Witness for C9's amended theorem at n = 2 on a one-record log. -/
theorem view_transactions_amended_witness :
    1 ≤ 2 ∧
    view_transactions db_onetx 2 = ((db_onetx.transactions).reverse.take 2).reverse :=
  ⟨by norm_num, (view_transactions_amended db_onetx 2).1 (by norm_num)⟩

/-- C10: `change_role` on an existing username succeeds and modifies only that
user's role field — balance, pin_salt and pin_hash are kept, every other account
and the vault cash are unchanged — and appends exactly one audit record. -/
theorem change_role_frame (now : String) (db : Db) (username new_role : String)
    (user : User) (hu : db.getUser username = some user) :
    (change_role now db username new_role).2 = none ∧
    (change_role now db username new_role).1.getUser username =
      some { user with role := new_role } ∧
    (∀ v, v ≠ username →
      (change_role now db username new_role).1.getUser v = db.getUser v) ∧
    (change_role now db username new_role).1.atm_cash = db.atm_cash ∧
    (change_role now db username new_role).1.transactions =
      db.transactions ++ [⟨now, "admin", "change_role", 0,
        username ++ ": " ++ user.role ++ " -> " ++ new_role⟩] := by
  have hu' : lookupUser db.users username = some user := hu
  refine ⟨?_, ?_, ?_, ?_, ?_⟩
  · simp [change_role, hu]
  · simp [change_role, hu, log_transaction, Db.getUser, lookupUser_updateUser_self, hu']
  · intro v hv
    simp [change_role, hu, hu', log_transaction, Db.getUser,
      lookupUser_updateUser_ne _ _ _ _ hv]
  · simp [change_role, hu, log_transaction]
  · simp [change_role, hu, log_transaction]

/-- Witness for C10: promoting alice to admin changes only her role and logs one
record. -/
theorem change_role_frame_witness :
    (change_role "t" db0 "alice" "admin").2 = none ∧
    (change_role "t" db0 "alice" "admin").1.getUser "alice" =
      some ⟨"admin", some "s0", some "h0", 50⟩ ∧
    (change_role "t" db0 "alice" "admin").1.getUser "bob" = db0.getUser "bob" ∧
    (change_role "t" db0 "alice" "admin").1.atm_cash = db0.atm_cash ∧
    (change_role "t" db0 "alice" "admin").1.transactions =
      db0.transactions ++ [⟨"t", "admin", "change_role", 0, "alice: user -> admin"⟩] := by
  have h := change_role_frame "t" db0 "alice" "admin" ⟨"user", some "s0", some "h0", 50⟩
    (by norm_num +decide [db0, Db.getUser, lookupUser])
  refine ⟨h.1, h.2.1, h.2.2.1 "bob" (by decide), h.2.2.2.1, ?_⟩
  rw [h.2.2.2.2]
  rfl

end Atm
